import Mathlib

/-!
Verification of the SIG AS registry (`go/sig/base/map.go`): the `ASMap`
registry keyed by `addr.IAInt`, its `AddIA` / `DelIA` / `ASEntry` operations,
and the `ReloadConfig` reconciliation algorithm (`addNewIAs` / `delOldIAs`).

The registry's map (`sync.Map`) is embedded as an association list with the
same observable operations (`Load`, `Store`, `Delete`, and `Range`-style
traversal over a snapshot of the entries).  Mutating methods are embedded in
state-passing style: each returns the updated map together with the Go return
values.  The external collaborators (the `addr` identifier encoding, the
`config` package, the per-AS entry with its factory, `ReloadConfig` and
`Cleanup` methods, and `common.CError`) are not part of the verified file and
are modelled from the spec as opaque data, quantified over in the theorems.
-/

set_option autoImplicit false

/-- Modelled from the spec: `addr.ISD_AS`, a two-part domain address with
unsigned components `I` (isolation domain) and `A` (AS number); equality by
value; either component zero makes it a wildcard. -/
structure ISD_AS where
  I : Nat
  A : Nat
deriving DecidableEq

/-- Modelled from the spec: `addr.IAInt`, the single comparable key an
`ISD_AS` converts to for use as the map key.  The spec requires only an
injective conversion with a left inverse (`IAInt.IA`), so the key is embedded
as the pair of components itself. -/
structure IAInt where
  I : Nat
  A : Nat
deriving DecidableEq

/-- Modelled from the spec: the conversion `ISD_AS.IAInt()` from an identifier
to its map key. -/
def ISD_AS.IAInt (ia : ISD_AS) : IAInt := ⟨ia.I, ia.A⟩

/-- Modelled from the spec: the conversion `IAInt.IA()` back from a map key to
the identifier it encodes. -/
def IAInt.IA (k : IAInt) : ISD_AS := ⟨k.I, k.A⟩

/-- Modelled from the spec: `common.CError`, an error carrying a description
and contextual key/value data; in `map.go` the context is always the offending
identifier under the key "ia", so the context is embedded as a list of
(string, identifier) pairs. -/
structure CError where
  desc : String
  ctx : List (String × ISD_AS)
deriving DecidableEq

/-- Modelled from the spec: `common.NewCError(desc, "ia", ia)` as used in
`map.go`, building an error from a description and one context pair. -/
def NewCError (desc : String) (key : String) (ia : ISD_AS) : CError :=
  ⟨desc, [(key, ia)]⟩

/-- Modelled from the spec: the per-AS `ASEntry` runtime object is opaque to
the registry; only its identity matters here, so it is embedded as a tagged
value. -/
structure ASEntry where
  tag : Nat
deriving DecidableEq

/-- Modelled from the spec: `config.ASEntry`, the opaque per-domain
configuration value. -/
abbrev CfgEntry := Nat

/-- Modelled from the spec: `config.Cfg`, a configuration snapshot mapping
identifiers to per-domain configs; embedded as an association list with
(in the Go map) pairwise-distinct identifier keys. -/
structure Cfg where
  ASes : List (ISD_AS × CfgEntry)

/-- Membership of an identifier among the keys of a configuration snapshot
(the Go lookup `cfg.ASes[*ia]` used by `delOldIAs`). -/
def Cfg.mem (cfg : Cfg) (ia : ISD_AS) : Bool :=
  cfg.ASes.any (fun p => decide (p.1 = ia))

/-- Modelled from the spec: the external collaborator operations consumed by
`map.go` — the entry factory `newASEntry`, the per-entry `ASEntry.ReloadConfig`
(apply-config), and `ASEntry.Cleanup`.  All are opaque to the registry and are
quantified over in the theorems. -/
structure Env where
  newASEntry : ISD_AS → Except CError ASEntry
  entryReloadConfig : ASEntry → CfgEntry → Bool
  cleanup : ASEntry → Option CError

/-- The registry state: the contents of the `sync.Map` underlying `ASMap`,
as an association list from keys to entries (keys pairwise distinct in any
state reachable through the registry operations). -/
abbrev ASMap := List (IAInt × ASEntry)

/-- `ASMap.Load`: look the key up, returning the stored entry if present. -/
def ASMap.Load : ASMap → IAInt → Option ASEntry
  | [], _ => none
  | p :: rest, key => if p.1 = key then some p.2 else ASMap.Load rest key

/-- `ASMap.Store`: set the value for a key, replacing an existing binding or
inserting a new one. -/
def ASMap.Store : ASMap → IAInt → ASEntry → ASMap
  | [], key, v => [(key, v)]
  | p :: rest, key, v =>
      if p.1 = key then (key, v) :: rest else p :: ASMap.Store rest key v

/-- `ASMap.Delete`: remove the binding for a key (no effect if absent). -/
def ASMap.Delete : ASMap → IAInt → ASMap
  | [], _ => []
  | p :: rest, key =>
      if p.1 = key then ASMap.Delete rest key else p :: ASMap.Delete rest key

/-- `ASMap.AddIA`: idempotently add an entry for a remote IA.  Rejects
wildcard identifiers, returns an existing entry unchanged, otherwise builds a
new entry via the factory and stores it; a factory error leaves the map
unchanged.  Returns the updated map with the Go `(*ASEntry, error)` pair. -/
def ASMap.AddIA (env : Env) (am : ASMap) (ia : ISD_AS) :
    ASMap × Except CError ASEntry :=
  if ia.I = 0 ∨ ia.A = 0 then
    (am, Except.error (NewCError "AddIA: ISD and AS must not be 0" "ia" ia))
  else
    match ASMap.Load am ia.IAInt with
    | some ae => (am, Except.ok ae)
    | none =>
        match env.newASEntry ia with
        | Except.error e => (am, Except.error e)
        | Except.ok ae => (ASMap.Store am ia.IAInt ae, Except.ok ae)

/-- `ASMap.DelIA`: remove the entry for a remote IA.  Fails if absent;
otherwise deletes the key and then runs the entry's `Cleanup`, returning its
error (if any). -/
def ASMap.DelIA (env : Env) (am : ASMap) (ia : ISD_AS) : ASMap × Option CError :=
  match ASMap.Load am ia.IAInt with
  | none => (am, some (NewCError "DelIA: No entry found" "ia" ia))
  | some ae => (ASMap.Delete am ia.IAInt, env.cleanup ae)

/-- The loop body of `addNewIAs` over the configuration entries: for each
`(ia, cfgEntry)` call `AddIA`; on error record failure and continue; on
success AND in the entry's `ReloadConfig(cfgEntry)` result. -/
def ASMap.addLoop (env : Env) :
    List (ISD_AS × CfgEntry) → ASMap → Bool → ASMap × Bool
  | [], am, s => (am, s)
  | (ia, cfgEntry) :: rest, am, s =>
      let r := ASMap.AddIA env am ia
      match r.2 with
      | Except.error _ => ASMap.addLoop env rest r.1 false
      | Except.ok ae =>
          ASMap.addLoop env rest r.1 (env.entryReloadConfig ae cfgEntry && s)

/-- `ASMap.addNewIAs`: add the ASes in `cfg` that are not currently
configured, applying each config to the (existing or new) entry. -/
def ASMap.addNewIAs (env : Env) (am : ASMap) (cfg : Cfg) : ASMap × Bool :=
  ASMap.addLoop env cfg.ASes am true

/-- The `Range` visitor loop of `delOldIAs`, traversing the snapshot of
entries taken at the start of the sweep: every key not in `cfg` is removed
via `DelIA`; a failure is recorded and the sweep continues. -/
def ASMap.delLoop (env : Env) (cfg : Cfg) :
    List (IAInt × ASEntry) → ASMap → Bool → ASMap × Bool
  | [], am, s => (am, s)
  | (key, _) :: rest, am, s =>
      if cfg.mem key.IA then ASMap.delLoop env cfg rest am s
      else
        let r := ASMap.DelIA env am key.IA
        match r.2 with
        | some _ => ASMap.delLoop env cfg rest r.1 false
        | none => ASMap.delLoop env cfg rest r.1 s

/-- `ASMap.delOldIAs`: delete all ASes that currently exist but are not in
`cfg`. -/
def ASMap.delOldIAs (env : Env) (am : ASMap) (cfg : Cfg) : ASMap × Bool :=
  ASMap.delLoop env cfg am am true

/-- `ASMap.ReloadConfig`: run the addition phase, then the deletion phase
(both always execute; the Go code binds the addition result to `s` before the
`&&` so the deletion call is never short-circuited away), and return the
conjunction of the deletion-phase and addition-phase results. -/
def ASMap.ReloadConfig (env : Env) (am : ASMap) (cfg : Cfg) : ASMap × Bool :=
  let r1 := ASMap.addNewIAs env am cfg
  let r2 := ASMap.delOldIAs env r1.1 cfg
  (r2.1, r2.2 && r1.2)

/-- `ASMap.ASEntry`: return the entry for the identifier, or none if absent.
The receiver is returned unchanged (the method only loads). -/
def ASMap.ASEntry (am : ASMap) (ia : ISD_AS) : ASMap × Option ASEntry :=
  match ASMap.Load am ia.IAInt with
  | some a => (am, some a)
  | none => (am, none)

/-! ### Basic facts about the identifier encoding and the raw map -/

theorem IAInt_IA (k : IAInt) : (k.IA).IAInt = k := rfl

theorem IA_IAInt (ia : ISD_AS) : (ia.IAInt).IA = ia := rfl

theorem IAInt_inj {ia ib : ISD_AS} (h : ia.IAInt = ib.IAInt) : ia = ib := by
  cases ia; cases ib
  simpa [ISD_AS.IAInt, ISD_AS.mk.injEq, IAInt.mk.injEq] using h

theorem IA_inj {j k : IAInt} (h : j.IA = k.IA) : j = k := by
  cases j; cases k
  simpa [IAInt.IA, ISD_AS.mk.injEq, IAInt.mk.injEq] using h

theorem load_store_self (am : ASMap) (k : IAInt) (v : ASEntry) :
    ASMap.Load (ASMap.Store am k v) k = some v := by
  induction am with
  | nil => simp [ASMap.Store, ASMap.Load]
  | cons p rest ih =>
      by_cases h : p.1 = k <;> simp [ASMap.Store, ASMap.Load, h, ih]

theorem load_store_other (am : ASMap) (k j : IAInt) (v : ASEntry) (h : j ≠ k) :
    ASMap.Load (ASMap.Store am k v) j = ASMap.Load am j := by
  have hk : ¬ k = j := fun hh => h hh.symm
  induction am with
  | nil => simp [ASMap.Store, ASMap.Load, hk]
  | cons p rest ih =>
      by_cases hp : p.1 = k
      · simp [ASMap.Store, ASMap.Load, hp, hk]
      · simp only [ASMap.Store, hp, if_false, ASMap.Load, ih]

theorem load_delete_self (am : ASMap) (k : IAInt) :
    ASMap.Load (ASMap.Delete am k) k = none := by
  induction am with
  | nil => simp [ASMap.Delete, ASMap.Load]
  | cons p rest ih =>
      by_cases h : p.1 = k <;> simp [ASMap.Delete, ASMap.Load, h, ih]

theorem load_delete_other (am : ASMap) (k j : IAInt) (h : j ≠ k) :
    ASMap.Load (ASMap.Delete am k) j = ASMap.Load am j := by
  have hk : ¬ k = j := fun hh => h hh.symm
  induction am with
  | nil => simp [ASMap.Delete]
  | cons p rest ih =>
      by_cases hp : p.1 = k
      · simp [ASMap.Delete, ASMap.Load, hp, hk, ih]
      · simp only [ASMap.Delete, hp, if_false, ASMap.Load, ih]

theorem load_delete_none (am : ASMap) (k j : IAInt)
    (h : ASMap.Load am j = none) : ASMap.Load (ASMap.Delete am k) j = none := by
  by_cases hj : j = k
  · rw [hj]; exact load_delete_self am k
  · rw [load_delete_other am k j hj]; exact h

theorem load_mem {am : ASMap} {k : IAInt} {ae : ASEntry}
    (h : ASMap.Load am k = some ae) : (k, ae) ∈ am := by
  induction am with
  | nil => simp [ASMap.Load] at h
  | cons p rest ih =>
      by_cases hp : p.1 = k
      · simp only [ASMap.Load, hp, if_true] at h
        obtain ⟨p1, p2⟩ := p
        obtain rfl : p2 = ae := by injection h
        obtain rfl : p1 = k := hp
        exact List.mem_cons_self _ _
      · simp only [ASMap.Load, hp, if_false] at h
        exact List.mem_cons_of_mem _ (ih h)

theorem load_none_not_mem {am : ASMap} {k : IAInt}
    (h : ASMap.Load am k = none) : k ∉ am.map Prod.fst := by
  induction am with
  | nil => simp
  | cons p rest ih =>
      by_cases hp : p.1 = k
      · simp [ASMap.Load, hp] at h
      · simp only [ASMap.Load, hp, if_false] at h
        simp only [List.map_cons, List.mem_cons]
        rintro (rfl | hm)
        · exact hp rfl
        · exact ih h hm

/-! ### Case analyses of `AddIA` and `DelIA` -/

theorem addIA_wildcard (env : Env) (am : ASMap) (ia : ISD_AS)
    (h : ia.I = 0 ∨ ia.A = 0) :
    ASMap.AddIA env am ia =
      (am, Except.error (NewCError "AddIA: ISD and AS must not be 0" "ia" ia)) := by
  simp only [ASMap.AddIA, if_pos h]

theorem addIA_present (env : Env) (am : ASMap) (ia : ISD_AS) (ae : ASEntry)
    (hw : ¬ (ia.I = 0 ∨ ia.A = 0)) (hl : ASMap.Load am ia.IAInt = some ae) :
    ASMap.AddIA env am ia = (am, Except.ok ae) := by
  simp only [ASMap.AddIA, if_neg hw, hl]

theorem addIA_factory_err (env : Env) (am : ASMap) (ia : ISD_AS) (e : CError)
    (hw : ¬ (ia.I = 0 ∨ ia.A = 0)) (hl : ASMap.Load am ia.IAInt = none)
    (hf : env.newASEntry ia = Except.error e) :
    ASMap.AddIA env am ia = (am, Except.error e) := by
  simp only [ASMap.AddIA, if_neg hw, hl, hf]

theorem addIA_new (env : Env) (am : ASMap) (ia : ISD_AS) (ae : ASEntry)
    (hw : ¬ (ia.I = 0 ∨ ia.A = 0)) (hl : ASMap.Load am ia.IAInt = none)
    (hf : env.newASEntry ia = Except.ok ae) :
    ASMap.AddIA env am ia = (ASMap.Store am ia.IAInt ae, Except.ok ae) := by
  simp only [ASMap.AddIA, if_neg hw, hl, hf]

theorem addIA_load_other (env : Env) (am : ASMap) (ia : ISD_AS) (k : IAInt)
    (hne : k ≠ ia.IAInt) :
    ASMap.Load (ASMap.AddIA env am ia).1 k = ASMap.Load am k := by
  by_cases hw : ia.I = 0 ∨ ia.A = 0
  · rw [addIA_wildcard env am ia hw]
  · cases hl : ASMap.Load am ia.IAInt with
    | some ae => rw [addIA_present env am ia ae hw hl]
    | none =>
        cases hf : env.newASEntry ia with
        | error e => rw [addIA_factory_err env am ia e hw hl hf]
        | ok ae =>
            rw [addIA_new env am ia ae hw hl hf]
            exact load_store_other am ia.IAInt k ae hne

theorem addIA_load_pres (env : Env) (am : ASMap) (ia : ISD_AS) (k : IAInt)
    (ae : ASEntry) (h : ASMap.Load am k = some ae) :
    ASMap.Load (ASMap.AddIA env am ia).1 k = some ae := by
  by_cases hne : k = ia.IAInt
  · subst hne
    by_cases hw : ia.I = 0 ∨ ia.A = 0
    · rw [addIA_wildcard env am ia hw]; exact h
    · rw [addIA_present env am ia ae hw h]; exact h
  · rw [addIA_load_other env am ia k hne]; exact h

theorem addIA_fail_state (env : Env) (am : ASMap) (ia : ISD_AS)
    (habs : ASMap.Load am ia.IAInt = none)
    (h : ia.I = 0 ∨ ia.A = 0 ∨ ∃ e, env.newASEntry ia = Except.error e) :
    (ASMap.AddIA env am ia).1 = am := by
  by_cases hw : ia.I = 0 ∨ ia.A = 0
  · rw [addIA_wildcard env am ia hw]
  · rcases h with h1 | h2 | ⟨e, he⟩
    · exact absurd (Or.inl h1) hw
    · exact absurd (Or.inr h2) hw
    · rw [addIA_factory_err env am ia e hw habs he]

theorem delIA_absent (env : Env) (am : ASMap) (ia : ISD_AS)
    (h : ASMap.Load am ia.IAInt = none) :
    ASMap.DelIA env am ia = (am, some (NewCError "DelIA: No entry found" "ia" ia)) := by
  simp only [ASMap.DelIA, h]

theorem delIA_present (env : Env) (am : ASMap) (ia : ISD_AS) (ae : ASEntry)
    (h : ASMap.Load am ia.IAInt = some ae) :
    ASMap.DelIA env am ia = (ASMap.Delete am ia.IAInt, env.cleanup ae) := by
  simp only [ASMap.DelIA, h]

theorem delIA_load_other (env : Env) (am : ASMap) (ia : ISD_AS) (k : IAInt)
    (hne : k ≠ ia.IAInt) :
    ASMap.Load (ASMap.DelIA env am ia).1 k = ASMap.Load am k := by
  cases hl : ASMap.Load am ia.IAInt with
  | none => rw [delIA_absent env am ia hl]
  | some ae =>
      rw [delIA_present env am ia ae hl]
      exact load_delete_other am ia.IAInt k hne

theorem delIA_load_none (env : Env) (am : ASMap) (ia : ISD_AS) (k : IAInt)
    (h : ASMap.Load am k = none) :
    ASMap.Load (ASMap.DelIA env am ia).1 k = none := by
  cases hl : ASMap.Load am ia.IAInt with
  | none => rw [delIA_absent env am ia hl]; exact h
  | some ae =>
      rw [delIA_present env am ia ae hl]
      exact load_delete_none am ia.IAInt k h

theorem delIA_load_self (env : Env) (am : ASMap) (ia : ISD_AS) :
    ASMap.Load (ASMap.DelIA env am ia).1 ia.IAInt = none := by
  cases hl : ASMap.Load am ia.IAInt with
  | none => rw [delIA_absent env am ia hl]; exact hl
  | some ae =>
      rw [delIA_present env am ia ae hl]
      exact load_delete_self am ia.IAInt

theorem nodup_load_self {am : ASMap} (hnd : (am.map Prod.fst).Nodup) :
    ∀ p ∈ am, ASMap.Load am p.1 = some p.2 := by
  induction am with
  | nil => intro p hp; simp at hp
  | cons q rest ih =>
      simp only [List.map_cons, List.nodup_cons] at hnd
      intro p hp
      rcases List.mem_cons.mp hp with rfl | hm
      · simp [ASMap.Load]
      · have hne : ¬ q.1 = p.1 := by
          intro hh
          exact hnd.1 (hh ▸ List.mem_map_of_mem Prod.fst hm)
        simp only [ASMap.Load, hne, if_false]
        exact ih hnd.2 p hm

/-! ### The addition-phase loop -/

theorem addLoop_load_pres (env : Env) (l : List (ISD_AS × CfgEntry)) :
    ∀ (am : ASMap) (s : Bool) (k : IAInt) (ae : ASEntry),
      ASMap.Load am k = some ae →
      ASMap.Load (ASMap.addLoop env l am s).1 k = some ae := by
  induction l with
  | nil => intro am s k ae h; exact h
  | cons q rest ih =>
      intro am s k ae h
      obtain ⟨ia, ce⟩ := q
      cases hr : (ASMap.AddIA env am ia).2 with
      | error e =>
          simp only [ASMap.addLoop, hr]
          exact ih _ _ k ae (addIA_load_pres env am ia k ae h)
      | ok ae2 =>
          simp only [ASMap.addLoop, hr]
          exact ih _ _ k ae (addIA_load_pres env am ia k ae h)

theorem addLoop_absent (env : Env) (l : List (ISD_AS × CfgEntry)) :
    ∀ (am : ASMap) (s : Bool) (k : IAInt),
      ASMap.Load am k = none →
      (∀ p ∈ l, p.1.IAInt = k →
        p.1.I = 0 ∨ p.1.A = 0 ∨ ∃ e, env.newASEntry p.1 = Except.error e) →
      ASMap.Load (ASMap.addLoop env l am s).1 k = none := by
  induction l with
  | nil => intro am s k h _; exact h
  | cons q rest ih =>
      intro am s k h hfail
      obtain ⟨ia, ce⟩ := q
      have hrest : ∀ p ∈ rest, p.1.IAInt = k →
          p.1.I = 0 ∨ p.1.A = 0 ∨ ∃ e, env.newASEntry p.1 = Except.error e :=
        fun p hp => hfail p (List.mem_cons_of_mem _ hp)
      have hstep : ASMap.Load (ASMap.AddIA env am ia).1 k = none := by
        by_cases hne : ia.IAInt = k
        · have hf := hfail (ia, ce) (List.mem_cons_self _ _) hne
          rw [addIA_fail_state env am ia (hne ▸ h) hf]
          exact h
        · rw [addIA_load_other env am ia k (fun hh => hne hh.symm)]
          exact h
      cases hr : (ASMap.AddIA env am ia).2 with
      | error e =>
          simp only [ASMap.addLoop, hr]
          exact ih _ _ k hstep hrest
      | ok ae2 =>
          simp only [ASMap.addLoop, hr]
          exact ih _ _ k hstep hrest

theorem addLoop_present (env : Env) (l : List (ISD_AS × CfgEntry)) :
    ∀ (am : ASMap) (s : Bool) (p : ISD_AS × CfgEntry), p ∈ l →
      ¬ (p.1.I = 0 ∨ p.1.A = 0) →
      ((ASMap.Load am p.1.IAInt).isSome ∨ ∃ ae, env.newASEntry p.1 = Except.ok ae) →
      (ASMap.Load (ASMap.addLoop env l am s).1 p.1.IAInt).isSome := by
  induction l with
  | nil => intro am s p hp; simp at hp
  | cons q rest ih =>
      intro am s p hp hw hok
      obtain ⟨ia, ce⟩ := q
      rcases List.mem_cons.mp hp with heq | hm
      · have hia : ia = p.1 := by rw [heq]
        have hce : ce = p.2 := by rw [heq]
        subst hia
        subst hce
        cases hl : ASMap.Load am p.1.IAInt with
        | some ae =>
            have hadd := addIA_present env am p.1 ae hw hl
            simp only [ASMap.addLoop, hadd]
            have hpres := addLoop_load_pres env rest am
              (env.entryReloadConfig ae p.2 && s) p.1.IAInt ae hl
            simp only [hpres, Option.isSome_some]
        | none =>
            rcases hok with hs | ⟨ae, hf⟩
            · rw [hl] at hs; simp at hs
            · have hadd := addIA_new env am p.1 ae hw hl hf
              simp only [ASMap.addLoop, hadd]
              have hst := load_store_self am p.1.IAInt ae
              have hpres := addLoop_load_pres env rest (ASMap.Store am p.1.IAInt ae)
                (env.entryReloadConfig ae p.2 && s) p.1.IAInt ae hst
              simp only [hpres, Option.isSome_some]
      · have htrans : (ASMap.Load (ASMap.AddIA env am ia).1 p.1.IAInt).isSome ∨
            ∃ ae, env.newASEntry p.1 = Except.ok ae := by
          rcases hok with hs | hfac
          · left
            obtain ⟨ae, hae⟩ := Option.isSome_iff_exists.mp hs
            rw [addIA_load_pres env am ia p.1.IAInt ae hae]
            rfl
          · right; exact hfac
        cases hr : (ASMap.AddIA env am ia).2 with
        | error e =>
            simp only [ASMap.addLoop, hr]
            exact ih _ _ p hm hw htrans
        | ok ae2 =>
            simp only [ASMap.addLoop, hr]
            exact ih _ _ p hm hw htrans

/-! ### The deletion-phase loop -/

theorem delLoop_load_mem (env : Env) (cfg : Cfg) (l : List (IAInt × ASEntry)) :
    ∀ (am : ASMap) (s : Bool) (k : IAInt), cfg.mem k.IA = true →
      ASMap.Load (ASMap.delLoop env cfg l am s).1 k = ASMap.Load am k := by
  induction l with
  | nil => intro am s k _; rfl
  | cons q rest ih =>
      intro am s k hk
      obtain ⟨key, e⟩ := q
      by_cases hq : cfg.mem key.IA
      · simp only [ASMap.delLoop, if_pos hq]
        exact ih am s k hk
      · have hne : k ≠ (key.IA).IAInt := by
          rw [IAInt_IA]
          rintro rfl
          rw [hk] at hq
          exact hq rfl
        have hstep := delIA_load_other env am key.IA k hne
        cases hr : (ASMap.DelIA env am key.IA).2 with
        | some err =>
            simp only [ASMap.delLoop, if_neg hq, hr]
            rw [ih _ _ k hk, hstep]
        | none =>
            simp only [ASMap.delLoop, if_neg hq, hr]
            rw [ih _ _ k hk, hstep]

theorem delLoop_load_absent (env : Env) (cfg : Cfg) (l : List (IAInt × ASEntry)) :
    ∀ (am : ASMap) (s : Bool) (k : IAInt), ASMap.Load am k = none →
      ASMap.Load (ASMap.delLoop env cfg l am s).1 k = none := by
  induction l with
  | nil => intro am s k h; exact h
  | cons q rest ih =>
      intro am s k h
      obtain ⟨key, e⟩ := q
      by_cases hq : cfg.mem key.IA
      · simp only [ASMap.delLoop, if_pos hq]
        exact ih am s k h
      · have hstep := delIA_load_none env am key.IA k h
        cases hr : (ASMap.DelIA env am key.IA).2 with
        | some err =>
            simp only [ASMap.delLoop, if_neg hq, hr]
            exact ih _ _ k hstep
        | none =>
            simp only [ASMap.delLoop, if_neg hq, hr]
            exact ih _ _ k hstep

theorem delLoop_deletes (env : Env) (cfg : Cfg) (l : List (IAInt × ASEntry)) :
    ∀ (am : ASMap) (s : Bool) (k : IAInt), cfg.mem k.IA = false →
      k ∈ l.map Prod.fst →
      ASMap.Load (ASMap.delLoop env cfg l am s).1 k = none := by
  induction l with
  | nil => intro am s k _ hm; simp at hm
  | cons q rest ih =>
      intro am s k hk hm
      obtain ⟨key, e⟩ := q
      by_cases hkey : k = key
      · subst hkey
        have hq : ¬ cfg.mem k.IA := by rw [hk]; exact Bool.false_ne_true
        have hstep : ASMap.Load (ASMap.DelIA env am k.IA).1 k = none := by
          have := delIA_load_self env am k.IA
          rwa [IAInt_IA] at this
        cases hr : (ASMap.DelIA env am k.IA).2 with
        | some err =>
            simp only [ASMap.delLoop, if_neg hq, hr]
            exact delLoop_load_absent env cfg rest _ _ k hstep
        | none =>
            simp only [ASMap.delLoop, if_neg hq, hr]
            exact delLoop_load_absent env cfg rest _ _ k hstep
      · have hm2 : k ∈ rest.map Prod.fst := by
          simp only [List.map_cons, List.mem_cons] at hm
          rcases hm with h1 | h2
          · exact absurd h1 hkey
          · exact h2
        by_cases hq : cfg.mem key.IA
        · simp only [ASMap.delLoop, if_pos hq]
          exact ih am s k hk hm2
        · cases hr : (ASMap.DelIA env am key.IA).2 with
          | some err =>
              simp only [ASMap.delLoop, if_neg hq, hr]
              exact ih _ _ k hk hm2
          | none =>
              simp only [ASMap.delLoop, if_neg hq, hr]
              exact ih _ _ k hk hm2

/-! ### Aggregate flags of the two phases -/

theorem list_all_congr {α : Type} (l : List α) (f g : α → Bool)
    (h : ∀ a ∈ l, f a = g a) : l.all f = l.all g := by
  induction l with
  | nil => rfl
  | cons x xs ih =>
      simp only [List.all_cons, h x (List.mem_cons_self x xs),
        ih (fun a ha => h a (List.mem_cons_of_mem _ ha))]

/-- The outcome the addition phase records for one configuration pair, as a
function of the registry state at the start of the phase: false for a
wildcard identifier or a failed factory call, otherwise the apply-config
result on the (existing or newly created) entry. -/
def addOutcome (env : Env) (am : ASMap) (p : ISD_AS × CfgEntry) : Bool :=
  if p.1.I = 0 ∨ p.1.A = 0 then false
  else
    match ASMap.Load am p.1.IAInt with
    | some ae => env.entryReloadConfig ae p.2
    | none =>
        match env.newASEntry p.1 with
        | Except.error _ => false
        | Except.ok ae => env.entryReloadConfig ae p.2

theorem addOutcome_congr (env : Env) {am am' : ASMap} (p : ISD_AS × CfgEntry)
    (h : ASMap.Load am' p.1.IAInt = ASMap.Load am p.1.IAInt) :
    addOutcome env am' p = addOutcome env am p := by
  unfold addOutcome
  rw [h]

theorem addLoop_flag (env : Env) (l : List (ISD_AS × CfgEntry)) :
    ∀ (am : ASMap) (s : Bool), l.Pairwise (fun p q => p.1 ≠ q.1) →
      (ASMap.addLoop env l am s).2 = (s && l.all (addOutcome env am)) := by
  induction l with
  | nil => intro am s _; simp [ASMap.addLoop]
  | cons q rest ih =>
      intro am s hnd
      obtain ⟨ia, ce⟩ := q
      rw [List.pairwise_cons] at hnd
      obtain ⟨hhead, htail⟩ := hnd
      have hcongr : rest.all (addOutcome env (ASMap.AddIA env am ia).1) =
          rest.all (addOutcome env am) :=
        list_all_congr rest _ _ (fun p hp =>
          addOutcome_congr env p (addIA_load_other env am ia p.1.IAInt
            (fun hh => hhead p hp (IAInt_inj hh).symm)))
      by_cases hw : ia.I = 0 ∨ ia.A = 0
      · have hadd := addIA_wildcard env am ia hw
        have hout : addOutcome env am (ia, ce) = false := by
          simp [addOutcome, hw]
        simp only [ASMap.addLoop, hadd]
        rw [ih am false htail, List.all_cons, hout]
        simp
      · cases hl : ASMap.Load am ia.IAInt with
        | some ae =>
            have hadd := addIA_present env am ia ae hw hl
            have hout : addOutcome env am (ia, ce) = env.entryReloadConfig ae ce := by
              simp [addOutcome, hw, hl]
            simp only [ASMap.addLoop, hadd]
            rw [ih am _ htail, List.all_cons, hout,
              Bool.and_assoc, Bool.and_left_comm]
        | none =>
            cases hf : env.newASEntry ia with
            | error e =>
                have hadd := addIA_factory_err env am ia e hw hl hf
                have hout : addOutcome env am (ia, ce) = false := by
                  simp [addOutcome, hw, hl, hf]
                simp only [ASMap.addLoop, hadd]
                rw [ih am false htail, List.all_cons, hout]
                simp
            | ok ae =>
                have hadd := addIA_new env am ia ae hw hl hf
                have hout : addOutcome env am (ia, ce) = env.entryReloadConfig ae ce := by
                  simp [addOutcome, hw, hl, hf]
                have hcongr2 : rest.all (addOutcome env (ASMap.Store am ia.IAInt ae)) =
                    rest.all (addOutcome env am) := by
                  rw [← hcongr, hadd]
                simp only [ASMap.addLoop, hadd]
                rw [ih _ _ htail, hcongr2, List.all_cons, hout,
                  Bool.and_assoc, Bool.and_left_comm]

/-- The outcome the deletion phase records for one registry pair: true if the
identifier is still in `cfg` (no removal attempted), otherwise whether the
entry's cleanup succeeded. -/
def delOutcome (env : Env) (cfg : Cfg) (p : IAInt × ASEntry) : Bool :=
  cfg.mem p.1.IA || (env.cleanup p.2).isNone

theorem delLoop_flag (env : Env) (cfg : Cfg) (l : List (IAInt × ASEntry)) :
    ∀ (am : ASMap) (s : Bool), l.Pairwise (fun p q => p.1 ≠ q.1) →
      (∀ p ∈ l, ASMap.Load am p.1 = some p.2) →
      (ASMap.delLoop env cfg l am s).2 = (s && l.all (delOutcome env cfg)) := by
  induction l with
  | nil => intro am s _ _; simp [ASMap.delLoop]
  | cons q rest ih =>
      intro am s hnd hload
      obtain ⟨key, e⟩ := q
      rw [List.pairwise_cons] at hnd
      obtain ⟨hhead, htail⟩ := hnd
      have hloadrest : ∀ p ∈ rest, ASMap.Load am p.1 = some p.2 :=
        fun p hp => hload p (List.mem_cons_of_mem _ hp)
      by_cases hq : cfg.mem key.IA
      · have hout : delOutcome env cfg (key, e) = true := by
          simp [delOutcome, hq]
        simp only [ASMap.delLoop, if_pos hq]
        rw [ih am s htail hloadrest, List.all_cons, hout]
        simp
      · have hkey : ASMap.Load am (key.IA).IAInt = some e :=
          hload (key, e) (List.mem_cons_self _ _)
        have hdel := delIA_present env am key.IA e hkey
        have hloadrest2 : ∀ p ∈ rest,
            ASMap.Load (ASMap.Delete am (key.IA).IAInt) p.1 = some p.2 := by
          intro p hp
          rw [IAInt_IA]
          rw [load_delete_other am key p.1 (fun hh => hhead p hp hh.symm)]
          exact hloadrest p hp
        have hqf : cfg.mem key.IA = false := eq_false_of_ne_true hq
        cases hcl : env.cleanup e with
        | some err =>
            have hout : delOutcome env cfg (key, e) = false := by
              simp [delOutcome, hqf, hcl]
            simp only [ASMap.delLoop, if_neg hq, hdel, hcl]
            rw [ih _ false htail hloadrest2, List.all_cons, hout]
            simp
        | none =>
            have hout : delOutcome env cfg (key, e) = true := by
              simp [delOutcome, hqf, hcl]
            simp only [ASMap.delLoop, if_neg hq, hdel, hcl]
            rw [ih _ s htail hloadrest2, List.all_cons, hout]
            simp

/-! ### Key distinctness is preserved by the operations -/

theorem store_fst_present (am : ASMap) (k : IAInt) (v : ASEntry)
    (h : (ASMap.Load am k).isSome) :
    (ASMap.Store am k v).map Prod.fst = am.map Prod.fst := by
  induction am with
  | nil => simp [ASMap.Load] at h
  | cons p rest ih =>
      by_cases hp : p.1 = k
      · simp [ASMap.Store, hp]
      · simp only [ASMap.Load, hp, if_false] at h
        simp [ASMap.Store, hp, ih h]

theorem store_fst_absent (am : ASMap) (k : IAInt) (v : ASEntry)
    (h : ASMap.Load am k = none) :
    (ASMap.Store am k v).map Prod.fst = am.map Prod.fst ++ [k] := by
  induction am with
  | nil => simp [ASMap.Store]
  | cons p rest ih =>
      by_cases hp : p.1 = k
      · simp [ASMap.Load, hp] at h
      · simp only [ASMap.Load, hp, if_false] at h
        simp [ASMap.Store, hp, ih h]

theorem store_nodup (am : ASMap) (k : IAInt) (v : ASEntry)
    (hnd : (am.map Prod.fst).Nodup) :
    ((ASMap.Store am k v).map Prod.fst).Nodup := by
  cases h : ASMap.Load am k with
  | some ae =>
      rw [store_fst_present am k v (by rw [h]; rfl)]
      exact hnd
  | none =>
      rw [store_fst_absent am k v h]
      rw [List.nodup_append]
      exact ⟨hnd, List.nodup_singleton k,
        by simpa [List.disjoint_singleton] using load_none_not_mem h⟩

theorem addIA_nodup (env : Env) (am : ASMap) (ia : ISD_AS)
    (hnd : (am.map Prod.fst).Nodup) :
    (((ASMap.AddIA env am ia).1).map Prod.fst).Nodup := by
  by_cases hw : ia.I = 0 ∨ ia.A = 0
  · rw [addIA_wildcard env am ia hw]; exact hnd
  · cases hl : ASMap.Load am ia.IAInt with
    | some ae => rw [addIA_present env am ia ae hw hl]; exact hnd
    | none =>
        cases hf : env.newASEntry ia with
        | error e => rw [addIA_factory_err env am ia e hw hl hf]; exact hnd
        | ok ae =>
            rw [addIA_new env am ia ae hw hl hf]
            exact store_nodup am ia.IAInt ae hnd

theorem addLoop_nodup (env : Env) (l : List (ISD_AS × CfgEntry)) :
    ∀ (am : ASMap) (s : Bool), (am.map Prod.fst).Nodup →
      (((ASMap.addLoop env l am s).1).map Prod.fst).Nodup := by
  induction l with
  | nil => intro am s h; exact h
  | cons q rest ih =>
      intro am s h
      obtain ⟨ia, ce⟩ := q
      cases hr : (ASMap.AddIA env am ia).2 with
      | error e =>
          simp only [ASMap.addLoop, hr]
          exact ih _ _ (addIA_nodup env am ia h)
      | ok ae =>
          simp only [ASMap.addLoop, hr]
          exact ih _ _ (addIA_nodup env am ia h)

/-- Pointwise characterization of the deletion phase: a key survives
`delOldIAs` (with its entry unchanged) exactly when its identifier is in
`cfg`; every other key is removed, whether or not its cleanup succeeded. -/
theorem delOldIAs_state (env : Env) (am : ASMap) (cfg : Cfg) (k : IAInt) :
    ASMap.Load (ASMap.delOldIAs env am cfg).1 k =
      if cfg.mem k.IA then ASMap.Load am k else none := by
  by_cases hm : cfg.mem k.IA
  · rw [if_pos hm]
    exact delLoop_load_mem env cfg am am true k hm
  · rw [if_neg hm]
    cases hl : ASMap.Load am k with
    | none => exact delLoop_load_absent env cfg am am true k hl
    | some ae =>
        have hmem : k ∈ am.map Prod.fst := List.mem_map_of_mem Prod.fst (load_mem hl)
        exact delLoop_deletes env cfg am am true k (Bool.not_eq_true _ ▸ eq_false_of_ne_true hm) hmem

/-! ### Auxiliary facts used by the claim theorems -/

theorem cfg_mem_exists {cfg : Cfg} {ia : ISD_AS} (h : cfg.mem ia = true) :
    ∃ p ∈ cfg.ASes, p.1 = ia := by
  simpa [Cfg.mem, List.any_eq_true, decide_eq_true_eq] using h

theorem nodup_fst_pairwise {α β : Type} {l : List (α × β)}
    (h : (l.map Prod.fst).Nodup) : l.Pairwise (fun p q => p.1 ≠ q.1) :=
  (List.pairwise_map).mp h

/-- A collaborator whose factory and apply-config always succeed and whose
cleanup always succeeds; for concrete instantiations. -/
def envOk : Env := ⟨fun _ => Except.ok ⟨1⟩, fun _ _ => true, fun _ => none⟩

/-- A collaborator whose factory and apply-config succeed but whose cleanup
always fails; for concrete instantiations. -/
def envCleanupFail : Env :=
  ⟨fun _ => Except.ok ⟨1⟩, fun _ _ => true, fun _ => some ⟨"cleanup failed", []⟩⟩

/-- A collaborator whose factory always fails; for concrete instantiations. -/
def envFactoryFail : Env :=
  ⟨fun _ => Except.error ⟨"newASEntry failed", []⟩, fun _ _ => true, fun _ => none⟩

/-! ### Claim theorems -/

/-- C1: for every configuration snapshot `cfg`, `ReloadConfig` executes the
addition phase and then the deletion phase, both unconditionally — its final
state is exactly the deletion phase applied to the addition phase's state,
whatever the addition phase reported — and its return value is the logical
AND of the deletion-phase result and the addition-phase result.  The third
conjunct exhibits the behavioral consequence of the missing short-circuit:
every stale key (identifier absent from `cfg`) is removed by the pass,
regardless of any addition failures. -/
theorem C1_reloadConfig_runs_both_phases (env : Env) (am : ASMap) (cfg : Cfg) :
    (ASMap.ReloadConfig env am cfg).1 =
        (ASMap.delOldIAs env (ASMap.addNewIAs env am cfg).1 cfg).1 ∧
    (ASMap.ReloadConfig env am cfg).2 =
        ((ASMap.delOldIAs env (ASMap.addNewIAs env am cfg).1 cfg).2 &&
          (ASMap.addNewIAs env am cfg).2) ∧
    (∀ k : IAInt, cfg.mem k.IA = false →
      ASMap.Load (ASMap.ReloadConfig env am cfg).1 k = none) := by
  refine ⟨rfl, rfl, fun k hk => ?_⟩
  show ASMap.Load (ASMap.delOldIAs env (ASMap.addNewIAs env am cfg).1 cfg).1 k = none
  rw [delOldIAs_state, if_neg (by rw [hk]; exact Bool.false_ne_true)]

/-- C1 witness: the addition phase fails (the factory rejects the only
configured identifier (2,2)) and the stale key (1,1) is still removed. -/
theorem C1_witness :
    ASMap.Load
      (ASMap.ReloadConfig envFactoryFail [(⟨1, 1⟩, ⟨7⟩)] ⟨[(⟨2, 2⟩, 0)]⟩).1
      ⟨1, 1⟩ = none :=
  (C1_reloadConfig_runs_both_phases envFactoryFail [(⟨1, 1⟩, ⟨7⟩)]
    ⟨[(⟨2, 2⟩, 0)]⟩).2.2 ⟨1, 1⟩ (by decide)

/-- C3: for every non-wildcard identifier already present in the registry,
`AddIA` returns the stored entry with no error and leaves the registry
unchanged; the result does not depend on the collaborator at all (so the
entry factory is not consulted), and a second `AddIA` returns the identical
entry. -/
theorem C3_addIA_idempotent (env env' : Env) (am : ASMap) (ia : ISD_AS)
    (ae : ASEntry) (hI : ia.I ≠ 0) (hA : ia.A ≠ 0)
    (h : ASMap.Load am ia.IAInt = some ae) :
    ASMap.AddIA env am ia = (am, Except.ok ae) ∧
    ASMap.AddIA env am ia = ASMap.AddIA env' am ia ∧
    (ASMap.AddIA env (ASMap.AddIA env am ia).1 ia).2 = Except.ok ae := by
  have hw : ¬ (ia.I = 0 ∨ ia.A = 0) := by
    rintro (h0 | h0)
    · exact hI h0
    · exact hA h0
  have h1 := addIA_present env am ia ae hw h
  have h2 := addIA_present env' am ia ae hw h
  exact ⟨h1, h1.trans h2.symm, by simp [h1]⟩

/-- C3 witness: adding the already present identifier (1,1) twice returns the
stored entry both times, with two different collaborators. -/
theorem C3_witness :
    ASMap.AddIA envFactoryFail [(⟨1, 1⟩, ⟨7⟩)] ⟨1, 1⟩ =
      ([(⟨1, 1⟩, ⟨7⟩)], Except.ok ⟨7⟩) :=
  (C3_addIA_idempotent envFactoryFail envOk [(⟨1, 1⟩, ⟨7⟩)] ⟨1, 1⟩ ⟨7⟩
    (by decide) (by decide) rfl).1

/-- C4: for every wildcard identifier (either component zero), `AddIA` fails
with the `InvalidIdentifier` error ("AddIA: ISD and AS must not be 0")
carrying the offending identifier in its context, returns no entry, and
leaves the registry unchanged. -/
theorem C4_addIA_wildcard_rejected (env : Env) (am : ASMap) (ia : ISD_AS)
    (h : ia.I = 0 ∨ ia.A = 0) :
    ASMap.AddIA env am ia =
      (am, Except.error (NewCError "AddIA: ISD and AS must not be 0" "ia" ia)) ∧
    (∀ e : CError, (ASMap.AddIA env am ia).2 = Except.error e →
      ("ia", ia) ∈ e.ctx) := by
  refine ⟨addIA_wildcard env am ia h, fun e he => ?_⟩
  rw [addIA_wildcard env am ia h] at he
  have : NewCError "AddIA: ISD and AS must not be 0" "ia" ia = e := by
    injection he
  rw [← this]
  exact List.mem_singleton_self _

/-- C4 witness: the wildcard (0,5) is rejected and the registry is kept. -/
theorem C4_witness :
    ASMap.AddIA envOk [(⟨1, 1⟩, ⟨7⟩)] ⟨0, 5⟩ =
      ([(⟨1, 1⟩, ⟨7⟩)],
        Except.error (NewCError "AddIA: ISD and AS must not be 0" "ia" ⟨0, 5⟩)) :=
  (C4_addIA_wildcard_rejected envOk [(⟨1, 1⟩, ⟨7⟩)] ⟨0, 5⟩ (Or.inl rfl)).1

/-- C5: for every non-wildcard identifier absent from the registry, when the
entry factory fails `AddIA` returns exactly that error, returns no entry, and
leaves the registry unchanged — no partial entry is stored. -/
theorem C5_addIA_factory_error (env : Env) (am : ASMap) (ia : ISD_AS)
    (e : CError) (hI : ia.I ≠ 0) (hA : ia.A ≠ 0)
    (habs : ASMap.Load am ia.IAInt = none)
    (hf : env.newASEntry ia = Except.error e) :
    ASMap.AddIA env am ia = (am, Except.error e) := by
  have hw : ¬ (ia.I = 0 ∨ ia.A = 0) := by
    rintro (h0 | h0)
    · exact hI h0
    · exact hA h0
  exact addIA_factory_err env am ia e hw habs hf

/-- C5 witness: a failing factory leaves the one-entry registry unchanged. -/
theorem C5_witness :
    ASMap.AddIA envFactoryFail [(⟨1, 1⟩, ⟨7⟩)] ⟨2, 2⟩ =
      ([(⟨1, 1⟩, ⟨7⟩)], Except.error ⟨"newASEntry failed", []⟩) :=
  C5_addIA_factory_error envFactoryFail [(⟨1, 1⟩, ⟨7⟩)] ⟨2, 2⟩
    ⟨"newASEntry failed", []⟩ (by decide) (by decide) rfl rfl

/-- C6: for every identifier present in the registry, `DelIA` removes the key
and runs that entry's `Cleanup` once, returning the cleanup result as its
error: the resulting state is exactly `Delete` of the key (so the key is
absent afterwards even when `Cleanup` returns an error, and the entry is
never re-inserted) and every other key is untouched. -/
theorem C6_delIA_removes_then_cleans (env : Env) (am : ASMap) (ia : ISD_AS)
    (ae : ASEntry) (h : ASMap.Load am ia.IAInt = some ae) :
    ASMap.DelIA env am ia = (ASMap.Delete am ia.IAInt, env.cleanup ae) ∧
    ASMap.Load (ASMap.DelIA env am ia).1 ia.IAInt = none ∧
    (∀ k, k ≠ ia.IAInt →
      ASMap.Load (ASMap.DelIA env am ia).1 k = ASMap.Load am k) :=
  ⟨delIA_present env am ia ae h, delIA_load_self env am ia,
    fun k hk => delIA_load_other env am ia k hk⟩

/-- C6 witness: deleting the present identifier (1,1) under a collaborator
whose cleanup fails still removes the key and surfaces the cleanup error. -/
theorem C6_witness :
    ASMap.DelIA envCleanupFail [(⟨1, 1⟩, ⟨7⟩)] ⟨1, 1⟩ =
      (ASMap.Delete [(⟨1, 1⟩, ⟨7⟩)] ⟨1, 1⟩,
        some ⟨"cleanup failed", []⟩) :=
  (C6_delIA_removes_then_cleans envCleanupFail [(⟨1, 1⟩, ⟨7⟩)] ⟨1, 1⟩ ⟨7⟩ rfl).1

/-- C7: for every identifier with no entry in the registry, `DelIA` fails with
the `NotFound` error ("DelIA: No entry found") carrying the identifier, the
registry is returned unchanged, and the result does not depend on the
collaborator (so no `Cleanup` is consulted). -/
theorem C7_delIA_absent_notfound (env env' : Env) (am : ASMap) (ia : ISD_AS)
    (h : ASMap.Load am ia.IAInt = none) :
    ASMap.DelIA env am ia = (am, some (NewCError "DelIA: No entry found" "ia" ia)) ∧
    ASMap.DelIA env am ia = ASMap.DelIA env' am ia := by
  have h1 := delIA_absent env am ia h
  have h2 := delIA_absent env' am ia h
  exact ⟨h1, h1.trans h2.symm⟩

/-- C7 witness: deleting the absent identifier (2,2) from a one-entry
registry fails with the NotFound error and keeps the registry. -/
theorem C7_witness :
    ASMap.DelIA envCleanupFail [(⟨1, 1⟩, ⟨7⟩)] ⟨2, 2⟩ =
      ([(⟨1, 1⟩, ⟨7⟩)], some (NewCError "DelIA: No entry found" "ia" ⟨2, 2⟩)) :=
  (C7_delIA_absent_notfound envCleanupFail envOk [(⟨1, 1⟩, ⟨7⟩)] ⟨2, 2⟩ rfl).1

/-- C9 counterexample: `DelIA` performs no wildcard validation.  On the
wildcard (0,0) with an empty registry it returns the `NotFound` error
("DelIA: No entry found") — an ordinary absent-key lookup — which is not the
`InvalidIdentifier` error ("AddIA: ISD and AS must not be 0") the claim
requires. -/
theorem C9_counterexample :
    ASMap.DelIA envOk [] ⟨0, 0⟩ =
      ([], some (NewCError "DelIA: No entry found" "ia" ⟨0, 0⟩)) ∧
    ("DelIA: No entry found" : String) ≠ "AddIA: ISD and AS must not be 0" :=
  ⟨rfl, by decide⟩

/-- C9 (amended): `DelIA` performs no wildcard validation; a wildcard
identifier, whose key is never present in a registry populated through
`AddIA`, is treated as an ordinary lookup of an absent key: `DelIA` fails
with the `NotFound` error carrying the identifier, invokes no cleanup, and
leaves the registry unchanged. -/
theorem C9_delIA_wildcard_notfound (env : Env) (am : ASMap) (ia : ISD_AS)
    (h : ia.I = 0 ∨ ia.A = 0) (habs : ASMap.Load am ia.IAInt = none) :
    ASMap.DelIA env am ia =
      (am, some (NewCError "DelIA: No entry found" "ia" ia)) :=
  delIA_absent env am ia habs

/-- C9 witness: the wildcard (0,3) against a non-empty registry. -/
theorem C9_witness :
    ASMap.DelIA envOk [(⟨1, 1⟩, ⟨7⟩)] ⟨0, 3⟩ =
      ([(⟨1, 1⟩, ⟨7⟩)], some (NewCError "DelIA: No entry found" "ia" ⟨0, 3⟩)) :=
  C9_delIA_wildcard_notfound envOk [(⟨1, 1⟩, ⟨7⟩)] ⟨0, 3⟩ (Or.inl rfl) rfl

/-- C10: the lookup `ASEntry` never mutates the registry (the state it
returns is the argument state) and performs no identifier validation: for
every identifier, wildcards included, its result is exactly the `Load` of the
identifier's key — the stored entry if present and none otherwise. -/
theorem C10_asEntry_frame (am : ASMap) (ia : ISD_AS) :
    (ASMap.ASEntry am ia).1 = am ∧
    (ASMap.ASEntry am ia).2 = ASMap.Load am ia.IAInt := by
  cases h : ASMap.Load am ia.IAInt with
  | some a => simp [ASMap.ASEntry, h]
  | none => simp [ASMap.ASEntry, h]

/-- C2 counterexample to the claim as stated ("any identifier whose Add or
Remove failed is left in the state it had before the pass"): with registry
{(1,1) ↦ entry} and empty cfg, the pass performs exactly one operation, the
Remove of (1,1), whose cleanup fails, so the pass returns false — yet the
identifier does not remain in its prior (present) state: its key is gone. -/
theorem C2_counterexample :
    ASMap.Load [(⟨1, 1⟩, ⟨7⟩)] ⟨1, 1⟩ = some ⟨7⟩ ∧
    (ASMap.ReloadConfig envCleanupFail [(⟨1, 1⟩, ⟨7⟩)] ⟨[]⟩).2 = false ∧
    ASMap.Load (ASMap.ReloadConfig envCleanupFail [(⟨1, 1⟩, ⟨7⟩)] ⟨[]⟩).1
      ⟨1, 1⟩ = none :=
  ⟨rfl, rfl, rfl⟩

/-- C2 (amended): after a `ReloadConfig(cfg)` pass in which every `Add`
(including entry construction) succeeded, the registry's key set equals
`cfg`'s key set — an identifier whose `Remove` failed (cleanup error) is
nonetheless removed, so Remove failures do not preserve the prior state.
Identifiers whose `Add` failed are left as they were: a failed `Add` leaves
an absent identifier absent, and a key that was present and is in `cfg`
stays present with its entry unchanged; a key present but absent from `cfg`
is always removed. -/
theorem C2_reload_converges (env : Env) (am : ASMap) (cfg : Cfg) :
    ((∀ p ∈ cfg.ASes, ¬ (p.1.I = 0 ∨ p.1.A = 0) ∧
        ((ASMap.Load am p.1.IAInt).isSome ∨
          ∃ ae, env.newASEntry p.1 = Except.ok ae)) →
      ∀ k : IAInt,
        (ASMap.Load (ASMap.ReloadConfig env am cfg).1 k).isSome = cfg.mem k.IA) ∧
    (∀ ia : ISD_AS, ASMap.Load am ia.IAInt = none →
      (ia.I = 0 ∨ ia.A = 0 ∨ ∃ e, env.newASEntry ia = Except.error e) →
      ASMap.Load (ASMap.ReloadConfig env am cfg).1 ia.IAInt = none) ∧
    (∀ (k : IAInt) (ae : ASEntry), ASMap.Load am k = some ae →
      cfg.mem k.IA = true →
      ASMap.Load (ASMap.ReloadConfig env am cfg).1 k = some ae) ∧
    (∀ (k : IAInt) (ae : ASEntry), ASMap.Load am k = some ae →
      cfg.mem k.IA = false →
      ASMap.Load (ASMap.ReloadConfig env am cfg).1 k = none) := by
  have hstate : ∀ k : IAInt, ASMap.Load (ASMap.ReloadConfig env am cfg).1 k =
      if cfg.mem k.IA then ASMap.Load (ASMap.addNewIAs env am cfg).1 k
      else none := by
    intro k
    show ASMap.Load (ASMap.delOldIAs env (ASMap.addNewIAs env am cfg).1 cfg).1 k = _
    exact delOldIAs_state env (ASMap.addNewIAs env am cfg).1 cfg k
  refine ⟨?_, ?_, ?_, ?_⟩
  · intro h k
    cases hmem : cfg.mem k.IA with
    | true =>
        obtain ⟨p, hp, hpk⟩ := cfg_mem_exists hmem
        obtain ⟨hv, hok⟩ := h p hp
        have hsome := addLoop_present env cfg.ASes am true p hp hv hok
        have hk : p.1.IAInt = k := by rw [hpk]; exact IAInt_IA k
        rw [hk] at hsome
        have hsome2 : (ASMap.Load (ASMap.addNewIAs env am cfg).1 k).isSome = true :=
          hsome
        rw [hstate k, if_pos hmem]
        exact hsome2
    | false =>
        rw [hstate k, if_neg (by rw [hmem]; exact Bool.false_ne_true)]
        rfl
  · intro ia habs hfail
    have hafter : ASMap.Load (ASMap.addNewIAs env am cfg).1 ia.IAInt = none := by
      refine addLoop_absent env cfg.ASes am true ia.IAInt habs ?_
      intro p hp hpk
      have hpe : p.1 = ia := IAInt_inj hpk
      rw [hpe]
      exact hfail
    rw [hstate ia.IAInt]
    split
    · exact hafter
    · rfl
  · intro k ae h hmem
    have hae : ASMap.Load (ASMap.addNewIAs env am cfg).1 k = some ae :=
      addLoop_load_pres env cfg.ASes am true k ae h
    rw [hstate k, if_pos hmem]
    exact hae
  · intro k ae h hmem
    rw [hstate k, if_neg (by rw [hmem]; exact Bool.false_ne_true)]

/-- C2 witness: from an empty registry, a one-identifier cfg whose factory
succeeds makes the key set converge to cfg's key set. -/
theorem C2_witness :
    (ASMap.Load (ASMap.ReloadConfig envOk [] ⟨[(⟨1, 2⟩, 0)]⟩).1 ⟨1, 2⟩).isSome =
      Cfg.mem ⟨[(⟨1, 2⟩, 0)]⟩ (IAInt.IA ⟨1, 2⟩) :=
  (C2_reload_converges envOk [] ⟨[(⟨1, 2⟩, 0)]⟩).1
    (by
      intro p hp
      rw [List.mem_singleton] at hp
      subst hp
      exact ⟨by decide, Or.inr ⟨⟨1⟩, rfl⟩⟩)
    ⟨1, 2⟩

/-- C8: with the pairwise-distinct keys a Go map guarantees, the addition
phase attempts `Add` for every configuration pair, never aborting, and its
aggregate result is the logical AND of the per-pair outcomes (`addOutcome`:
false on wildcard or factory failure, else the apply-config result on the
existing or new entry); the deletion phase's aggregate is the AND of the
per-entry outcomes (`delOutcome`: true for keys kept in cfg, else cleanup
success), and its state removes exactly the keys absent from cfg. -/
theorem C8_phase_aggregates (env : Env) (am : ASMap) (cfg : Cfg)
    (hcfg : (cfg.ASes.map Prod.fst).Nodup) (ham : (am.map Prod.fst).Nodup) :
    (ASMap.addNewIAs env am cfg).2 = cfg.ASes.all (addOutcome env am) ∧
    (ASMap.delOldIAs env (ASMap.addNewIAs env am cfg).1 cfg).2 =
      ((ASMap.addNewIAs env am cfg).1).all (delOutcome env cfg) ∧
    (∀ k : IAInt,
      ASMap.Load (ASMap.delOldIAs env (ASMap.addNewIAs env am cfg).1 cfg).1 k =
        if cfg.mem k.IA then ASMap.Load (ASMap.addNewIAs env am cfg).1 k
        else none) := by
  have hpair := nodup_fst_pairwise hcfg
  have h1 : (ASMap.addNewIAs env am cfg).2 =
      (true && cfg.ASes.all (addOutcome env am)) :=
    addLoop_flag env cfg.ASes am true hpair
  have hnd1 : (((ASMap.addNewIAs env am cfg).1).map Prod.fst).Nodup :=
    addLoop_nodup env cfg.ASes am true ham
  have h2 : (ASMap.delOldIAs env (ASMap.addNewIAs env am cfg).1 cfg).2 =
      (true && ((ASMap.addNewIAs env am cfg).1).all (delOutcome env cfg)) :=
    delLoop_flag env cfg (ASMap.addNewIAs env am cfg).1
      (ASMap.addNewIAs env am cfg).1 true (nodup_fst_pairwise hnd1)
      (nodup_load_self hnd1)
  exact ⟨by rw [h1, Bool.true_and], by rw [h2, Bool.true_and],
    fun k => delOldIAs_state env (ASMap.addNewIAs env am cfg).1 cfg k⟩

/-- C8 witness: a two-pair cfg against a one-entry registry; the addition
phase aggregate equals the AND of the per-pair outcomes. -/
theorem C8_witness :
    (ASMap.addNewIAs envOk [(⟨1, 1⟩, ⟨7⟩)] ⟨[(⟨1, 2⟩, 0), (⟨0, 3⟩, 1)]⟩).2 =
      (Cfg.ASes ⟨[(⟨1, 2⟩, 0), (⟨0, 3⟩, 1)]⟩).all
        (addOutcome envOk [(⟨1, 1⟩, ⟨7⟩)]) :=
  (C8_phase_aggregates envOk [(⟨1, 1⟩, ⟨7⟩)] ⟨[(⟨1, 2⟩, 0), (⟨0, 3⟩, 1)]⟩
    (by decide) (by decide)).1
